import Mathlib

/-!  Formal model of the Victron BMV serial driver core (src/index.js).

JavaScript strings are modelled as lists of UTF-16 code units
(`List Nat`); JavaScript numbers that may be NaN are modelled with
`Option`; mutable objects become explicit records threaded through the
functions.  Each definition names the source function it embeds.
-/

/-- Code units of a string literal, used to state concrete examples. -/
def codes (s : String) : List Nat :=
  s.data.map Char.toNat

/-- JavaScript `toUpperCase` on a single ASCII code unit. -/
def toUpperCode (c : Nat) : Nat :=
  if 97 ≤ c ∧ c ≤ 122 then c - 32 else c

/-- Value of one hex digit, as `parseInt(c, 16)`; `none` models NaN. -/
def parseHexDigit (c : Nat) : Option Nat :=
  if 48 ≤ c ∧ c ≤ 57 then some (c - 48)
  else if 65 ≤ c ∧ c ≤ 70 then some (c - 55)
  else if 97 ≤ c ∧ c ≤ 102 then some (c - 87)
  else none

/-- One digit of `Number.prototype.toString(16)` (lowercase). -/
def hexDigitCode (n : Nat) : Nat :=
  if n < 10 then 48 + n else 87 + n

/-- Fueled body of `natToHexCodes`; the fuel only bounds the recursion
depth (dividing by 16 terminates long before the fuel runs out). -/
def natToHexCodesAux : Nat → Nat → List Nat
  | 0, _ => []
  | fuel + 1, n =>
    if n < 16 then [hexDigitCode n]
    else natToHexCodesAux fuel (n / 16) ++ [hexDigitCode (n % 16)]

/-- JavaScript `n.toString(16)` for a nonnegative integer. -/
def natToHexCodes (n : Nat) : List Nat :=
  natToHexCodesAux (n + 1) n

/-- JavaScript `s.slice(-2)` on a string of length at least two. -/
def sliceLast2 (l : List Nat) : List Nat :=
  l.drop (l.length - 2)

/-- JavaScript `s.substring(a, b)` for `a ≤ b`. -/
def jsSubstring (l : List Nat) (a b : Nat) : List Nat :=
  (l.drop a).take (b - a)

/-- The reduce inside `append_checksum` (src/index.js:236-238): nibbles at
even string positions weigh 16, odd positions weigh 1.  Returns `none`
when some character is not a hex digit (NaN poisoning in JavaScript). -/
def hexReduceGo : List Nat → Nat → Nat → Option Nat
  | [], _, total => some total
  | c :: rest, idx, total =>
    match parseHexDigit c with
    | none => none
    | some h => hexReduceGo rest (idx + 1) (if idx % 2 = 0 then total + 16 * h else total + h)

/-- The full nibble-weighted sum of a hex string, starting at index 0. -/
def hexReduce (l : List Nat) : Option Nat :=
  hexReduceGo l 0 0

/-- The JavaScript expression `(0x55 - s) % 256` (truncating `%`, hence
`Int.tmod`) followed by the `if (checksum < 0) checksum += 256` fixup in
`append_checksum` (src/index.js:239-240). -/
def jsChecksumByte (s : Nat) : Nat :=
  (let c0 : Int := (85 - (s : Int)).tmod 256
   if c0 < 0 then c0 + 256 else c0).toNat

/-- `append_checksum` (src/index.js:232-242): prefix a `0` nibble, compute
the nibble-weighted byte sum of the command, and append the two uppercase
hex digits of `(0x55 - sum) mod 256`. -/
def append_checksum (cmd : List Nat) : Option (List Nat) :=
  (hexReduce (48 :: cmd)).map fun s =>
    cmd ++ (sliceLast2 (48 :: natToHexCodes (jsChecksumByte s))).map toUpperCode

/-- Specification-side byte sum: interpret a hex string of even length as
nibble pairs and sum the resulting bytes; `none` on odd length or a
non-hex character. -/
def byteSum : List Nat → Option Nat
  | [] => some 0
  | [_] => none
  | a :: b :: rest =>
    (parseHexDigit a).bind fun x =>
      (parseHexDigit b).bind fun y =>
        (byteSum rest).map fun r => 16 * x + y + r

/-- Fueled body of `padEven`: each pass prepends one `'0'`, so `n`
passes always suffice to reach length `n`. -/
def padEvenAux : Nat → List Nat → Nat → List Nat
  | 0, l, _ => l
  | fuel + 1, l, n => if l.length < n then padEvenAux fuel (48 :: l) n else l

/-- The `while` padding loop of `endianSwap` (src/index.js:215-218):
prepend `'0'` until the string has the requested length. -/
def padEven (l : List Nat) (n : Nat) : List Nat :=
  padEvenAux n l n

/-- `endianSwap` (src/index.js:212-226).  Note that the first swap
replaces the whole string by four characters, so the `length >= 8`
branch is unreachable and characters beyond index 3 are dropped for
inputs of length at least four. -/
def endianSwap (hexStr : List Nat) (lengthInBytes : Nat) : List Nat :=
  let s := padEven hexStr (2 * lengthInBytes)
  let s := if s.length ≥ 4 then jsSubstring s 2 4 ++ jsSubstring s 0 2 else s
  let s := if s.length ≥ 8 then jsSubstring s 6 8 ++ jsSubstring s 4 6 else s
  s.map toUpperCode

/-- `ReceiverTransmitter.package` (src/index.js:1305-1307): frame a
message with a leading colon and a trailing linefeed. -/
def package (message : List Nat) : List Nat :=
  58 :: message.map toUpperCode ++ [10]

/-- `Command.createMessage` (src/index.js:627-650): for an address longer
than two characters, strip the `0x` prefix, endian-swap it and insert the
outgoing status byte `00`; append the checksum and uppercase. -/
def createMessage (cmd address value : List Nat) : Option (List Nat) :=
  let eAddress := if address.length > 2 then endianSwap (address.drop 2) 2 else []
  let flag : List Nat := if address.length > 2 then [48, 48] else []
  (append_checksum (cmd ++ eAddress ++ flag ++ value)).map (List.map toUpperCode)

/-- `Message.parseIdentifier` (src/index.js:328-334): the command digit
alone, or the first five characters for get (`'7'`) and set (`'8'`). -/
def parseIdentifier (cmdStr : List Nat) : List Nat :=
  let c := cmdStr.take 1
  if c ≠ [55] ∧ c ≠ [56] then c else cmdStr.take 5

/-- Truthiness of a JavaScript number-or-null argument: `0`, `null` and
`undefined` are falsy. -/
def jsTruthyInt : Option Int → Bool
  | none => false
  | some n => n ≠ 0

/-- Initial value of the mutable configuration `cmdDefaultPriority`
(src/index.js:528). -/
def cmdDefaultPriority : Int := 0

/-- Initial value of the mutable configuration `cmdDefaultMaxRetries`
(src/index.js:529). -/
def cmdDefaultMaxRetries : Int := 3

/-- `Command.setPriority` (src/index.js:605-610): falsy arguments give the
default, then the value is clamped by `min 1` and `max 0`. -/
def setPriority (p : Option Int) : Int :=
  let pr := if jsTruthyInt p then p.getD 0 else cmdDefaultPriority
  max 0 (min 1 pr)

/-- `Command.setMaxRetries` (src/index.js:613-617): falsy arguments give
the default, then the value is clamped by `max 0`. -/
def setMaxRetries (mr : Option Int) : Int :=
  let m := if jsTruthyInt mr then mr.getD 0 else cmdDefaultMaxRetries
  max 0 m

/-- A `Command` object (src/index.js:532): the fields the queue and the
transmitter read. -/
structure Command where
  priority : Int
  maxRetries : Int
  cmdStr : List Nat
  id : List Nat
deriving DecidableEq

/-- The `Command` constructor (src/index.js:538-547): set priority and
retries, build the wire string, parse the identifier from it.  `none`
models the NaN poisoning of `append_checksum` on non-hex input. -/
def mkCommand (cmd address value : List Nat) (priority maxRetries : Option Int) :
    Option Command :=
  (createMessage cmd address value).map fun s =>
    { priority := setPriority priority
      maxRetries := setMaxRetries maxRetries
      cmdStr := s
      id := parseIdentifier s }

/-- `Command.getResponse` (src/index.js:570-598): the expected response
string for a command. -/
def getResponse (c : Command) : List Nat :=
  let cmdStr := c.cmdStr
  let cd := cmdStr.take 1
  let r := if cd = [49] then [53]
           else if cd = [51] ∨ cd = [52] then [49]
           else cd
  let len := if cd = [55] then cmdStr.length - 2
             else if cd = [56] then cmdStr.length
             else 1
  r ++ jsSubstring cmdStr 1 len

/-- Loop body of `CommandMessageQ.indexForPriority` (src/index.js:724-732):
the scan `while (--i > 0 && q[i].priority < priority);` from the tail;
`go i` is the test with loop variable `i` after the pre-decrement, and the
returned value is `i + 1` at exit. -/
def ifpGo (q : List Command) (p : Int) : Nat → Nat
  | 0 => 1
  | i + 1 => if ((q[i + 1]?).map Command.priority).getD 0 < p then ifpGo q p i else i + 2

/-- `CommandMessageQ.indexForPriority` (src/index.js:724-732): the index
at which a message of priority `p` is inserted; 0 only for the empty
queue. -/
def indexForPriority (q : List Command) (p : Int) : Nat :=
  if q.length = 0 then 0 else ifpGo q p (q.length - 1)

/-- `CommandMessageQ.insertPriority` (src/index.js:737-747): shift the
first `indexOfInsertion` elements, push the message, concatenate the
remainder. -/
def insertPriority (q : List Command) (message : Command) (indexOfInsertion : Nat) :
    List Command :=
  q.take indexOfInsertion ++ message :: q.drop indexOfInsertion

/-- `CommandMessageQ.Q_push_back` (src/index.js:758-792); `comp` is the
`cmdCompression` flag: an equal identifier at the insertion point is
replaced in place, an equal wire string is dropped, anything else is
inserted at the priority index. -/
def Q_push_back (comp : Bool) (q : List Command) (cmd : Command) : List Command :=
  let l := indexForPriority q cmd.priority
  if comp ∧ 1 < l ∧ ((q[l - 1]?).map Command.id).getD [] = cmd.id then
    q.set (l - 1) cmd
  else if l = 0 ∨ ((q[l - 1]?).map Command.cmdStr).getD [] ≠ cmd.cmdStr then
    insertPriority q cmd l
  else q

/-- `CommandMessageQ.find` plus `delete` (src/index.js:689-719): remove
the first command whose identifier matches; status 0 is `isOK`, 1 is
`isUnknownID`. -/
def qDelete (q : List Command) (id : List Nat) : Int × List Command :=
  match q.findIdx? (fun c => c.id = id) with
  | some i => (0, q.eraseIdx i)
  | none => (1, q)

/-- Queue states reachable by `Q_push_back` insertions (with either
compression setting) of commands whose priorities lie in `[0, 1]` (as
`setPriority` guarantees for every constructed command) and by `delete`
removals. -/
inductive QReachable : List Command → Prop where
  | empty : QReachable []
  | push (q : List Command) (c : Command) (comp : Bool) : QReachable q →
      0 ≤ c.priority → c.priority ≤ 1 → QReachable (Q_push_back comp q c)
  | remove (q : List Command) (id : List Nat) : QReachable q →
      QReachable (qDelete q id).2

/-- Priority of the queue entry at index `i` (0 when out of range). -/
def priorityAt (q : List Command) (i : Nat) : Int :=
  ((q[i]?).map Command.priority).getD 0

/-- Priorities are non-increasing on the waiters behind the head, that
is, from index 1 to the tail. -/
def TailSorted (q : List Command) : Prop :=
  List.Pairwise (fun a b => b.priority ≤ a.priority) q.tail

/-- The get command for register 0x1000 with default (0) priority. -/
def cmdGetA : Command :=
  (mkCommand (codes "7") (codes "0x1000") [] none none).getD ⟨0, 0, [], []⟩

/-- The get command for register 0x1001 with priority 1. -/
def cmdGetB : Command :=
  (mkCommand (codes "7") (codes "0x1001") [] (some 1) none).getD ⟨0, 0, [], []⟩


/-- A cached telemetry value: an integer or a string. -/
inductive JsValue where
  | num (n : Int)
  | str (s : List Nat)
deriving DecidableEq

/-- Decimal digit test for `parseInt`. -/
def isDecDigit (c : Nat) : Bool :=
  decide (48 ≤ c ∧ c ≤ 57)

/-- Hex digit test for `parseInt` with a `0x` prefix. -/
def isHexCode (c : Nat) : Bool :=
  (parseHexDigit c).isSome

/-- Value of a nonempty list of decimal digits. -/
def decDigitsVal (l : List Nat) : Nat :=
  l.foldl (fun a c => 10 * a + (c - 48)) 0

/-- Value of a nonempty list of hex digits. -/
def hexDigitsVal (l : List Nat) : Nat :=
  l.foldl (fun a c => 16 * a + (parseHexDigit c).getD 0) 0

/-- Hex part of JavaScript `parseInt` after a `0x` prefix: the longest
digit prefix, NaN (none) when empty. -/
def jsParseIntHex (sign : Int) (r : List Nat) : Option Int :=
  let ds := r.takeWhile isHexCode
  if ds = [] then none else some (sign * hexDigitsVal ds)

/-- Decimal part of JavaScript `parseInt`: the longest digit prefix, NaN
(none) when empty. -/
def jsParseIntDec (sign : Int) (r : List Nat) : Option Int :=
  let ds := r.takeWhile isDecDigit
  if ds = [] then none else some (sign * decDigitsVal ds)

/-- JavaScript `parseInt(s)` with the default radix (src/index.js:1208):
an optional sign, then either a `0x`/`0X` prefix selecting base 16 or
decimal digits; parsing stops at the first non-digit; NaN is none.
Fractional or whitespace forms do not occur among telemetry values. -/
def jsParseInt (s : List Nat) : Option Int :=
  let sign : Int := if s.take 1 = [45] then -1 else 1
  let rest := if s.take 1 = [45] ∨ s.take 1 = [43] then s.drop 1 else s
  match rest with
  | 48 :: 120 :: r => jsParseIntHex sign r
  | 48 :: 88 :: r => jsParseIntHex sign r
  | r => jsParseIntDec sign r

/-- JavaScript `ToNumber` on a string, used by loose equality: the whole
string must be numeric (`0x` hex without sign, or signed decimal); the
empty string is 0; anything else is NaN (none). -/
def jsToNumber (s : List Nat) : Option Int :=
  if s = [] then some 0
  else
    match s with
    | 48 :: 120 :: r => if r ≠ [] ∧ r.all isHexCode then some ((hexDigitsVal r : Nat) : Int) else none
    | 48 :: 88 :: r => if r ≠ [] ∧ r.all isHexCode then some ((hexDigitsVal r : Nat) : Int) else none
    | _ =>
      let sign : Int := if s.take 1 = [45] then -1 else 1
      let rest := if s.take 1 = [45] ∨ s.take 1 = [43] then s.drop 1 else s
      if rest ≠ [] ∧ rest.all isDecDigit then some (sign * decDigitsVal rest) else none

/-- JavaScript loose equality (the `!=` at src/index.js:872) restricted to
the value shapes the cache holds: null, integers and strings; a
number-string comparison converts the string with `ToNumber`, and NaN
compares unequal to everything. -/
def looseEq : Option JsValue → Option JsValue → Bool
  | none, none => true
  | none, some _ => false
  | some _, none => false
  | some (.num a), some (.num b) => a = b
  | some (.str a), some (.str b) => a = b
  | some (.num a), some (.str b) => (jsToNumber b).elim false (· = a)
  | some (.str a), some (.num b) => (jsToNumber a).elim false (· = b)

/-- Exact numeric model for SI-converted quantities: an unreduced
fraction with a positive natural denominator.  JavaScript float
arithmetic is modelled as exact rational arithmetic; fractions are kept
unreduced so that every operation is kernel-computable. -/
structure JsNum where
  num : Int
  den : Nat
deriving DecidableEq

/-- Embed an integer as a fraction. -/
def jsNumOfInt (n : Int) : JsNum := ⟨n, 1⟩

/-- Fraction multiplication. -/
def jsNumMul (a b : JsNum) : JsNum := ⟨a.num * b.num, a.den * b.den⟩

/-- Fraction subtraction. -/
def jsNumSub (a b : JsNum) : JsNum := ⟨a.num * b.den - b.num * a.den, a.den * b.den⟩

/-- Fraction absolute value. -/
def jsNumAbs (a : JsNum) : JsNum := ⟨|a.num|, a.den⟩

/-- Fraction comparison (denominators are positive). -/
def jsNumLe (a b : JsNum) : Bool := decide (a.num * b.den ≤ b.num * a.den)

/-- One register descriptor (a CacheObject of device_cache.js) with the
fields src/index.js reads: committed `value`, staged `newValue`, the
per-key listener list (the source field `on`, renamed `onFns` because
`on` is reserved in Lean; listeners are opaque identifiers), the
notification threshold `delta` and the SI conversion factor. -/
structure Descriptor where
  value : Option JsValue
  newValue : Option JsValue
  delta : JsNum
  nativeToUnitFactor : JsNum
  onFns : List Nat
deriving DecidableEq

/-- The change object `runOnFunction` builds (src/index.js:879-887):
SI-converted numbers for a numeric staged value (none models NaN), the
raw values otherwise. -/
inductive ChangeObj where
  | nums (value newValue : Option JsNum)
  | raw (value newValue : Option JsValue)
deriving DecidableEq

/-- The `value` component of `SIValues` (src/index.js:861-866):
`obj.value * obj.nativeToUnitFactor`, where JavaScript coerces a null
value to 0 and a string through `ToNumber` (NaN propagates as none). -/
def siOld (d : Descriptor) : Option JsNum :=
  match d.value with
  | none => some (jsNumOfInt 0)
  | some (.num v) => some (jsNumMul (jsNumOfInt v) d.nativeToUnitFactor)
  | some (.str s) => (jsToNumber s).map (fun v => jsNumMul (jsNumOfInt v) d.nativeToUnitFactor)

/-- Listener invocations recorded as events.  Listeners are opaque and
cannot re-enter the engine, so the dirty loop of
`updateValuesAndValueListeners` performs a single pass. -/
inductive EngineEvent where
  | valueEv (listener : Nat) (change : ChangeObj) (time : Int) (key : List Nat)
  | changeListEv (listener : Nat) (changes : List (List Nat × ChangeObj)) (time : Int)
deriving DecidableEq

/-- The delta test of `runOnFunction` (src/index.js:899-901):
`Math.abs(changeObj.value - changeObj.newValue) >= obj.delta`; a NaN
comparison is false. -/
def deltaReached (d : Descriptor) (n : Int) : Bool :=
  match siOld d with
  | none => false
  | some v => jsNumLe d.delta (jsNumAbs (jsNumSub v (jsNumMul (jsNumOfInt n) d.nativeToUnitFactor)))

/-- The change object of `runOnFunction` (src/index.js:879-887). -/
def changeOf (d : Descriptor) : ChangeObj :=
  match d.newValue with
  | some (.num n) => .nums (siOld d) (some (jsNumMul (jsNumOfInt n) d.nativeToUnitFactor))
  | _ => .raw d.value d.newValue

/-- Guard under which `runOnFunction` keeps the change object and fires
the per-key listeners: a non-null staged value that differs loosely from
the committed one and is non-numeric or moves by at least delta. -/
def notifies (d : Descriptor) : Bool :=
  match d.newValue with
  | none => false
  | some nv =>
    !(looseEq d.value d.newValue) &&
      (match nv with
       | .num n => deltaReached d n
       | .str _ => true)

/-- `ReceiverTransmitter.runOnFunction` (src/index.js:868-908): build the
change object for a dirty descriptor, fire each per-key listener when the
value is non-numeric or the delta threshold is met, and return the change
object (null when listeners were not fired). -/
def runOnFunction (time : Int) (key : List Nat) (d : Descriptor) :
    Option ChangeObj × List EngineEvent :=
  match d.newValue with
  | none => (none, [])
  | some nv =>
    if looseEq d.value d.newValue then (none, [])
    else
      match nv with
      | .num n =>
        if deltaReached d n then
          (some (changeOf d), d.onFns.map (fun lid => .valueEv lid (changeOf d) time key))
        else (none, [])
      | .str _ =>
        (some (changeOf d), d.onFns.map (fun lid => .valueEv lid (changeOf d) time key))

/-- `ReceiverTransmitter.updateCache` (src/index.js:910-916): accept the
staged value when present, then clear it. -/
def updateCache (d : Descriptor) : Descriptor :=
  { d with value := if d.newValue ≠ none then d.newValue else d.value, newValue := none }

/-- One pass of the dirty loop of `updateValuesAndValueListeners`
(src/index.js:929-940) over the bmvdata entries in order: run the per-key
listeners, collect the change map entries, commit staged values. -/
def updatePass (time : Int) :
    List (List Nat × Descriptor) →
      List (List Nat × Descriptor) × List (List Nat × ChangeObj) × List EngineEvent
  | [] => ([], [], [])
  | (k, d) :: rest =>
    let r := runOnFunction time k d
    let pr := updatePass time rest
    ((k, updateCache d) :: pr.1,
     (match r.1 with
      | some cobj => (k, cobj) :: pr.2.1
      | none => pr.2.1),
     r.2 ++ pr.2.2)

/-- The state of the telemetry flow: the descriptor store (bmvdata, in
entry order), the telemetry-key index victronMap (key to store name), the
global ChangeList listeners, the running checksum, the frame arrival time
and the operational flag. -/
structure EngineState where
  store : List (List Nat × Descriptor)
  victron : List (List Nat × List Nat)
  onList : List Nat
  checksum : Nat
  packageArrivalTime : Int
  isOperational : Bool
deriving DecidableEq

/-- `ReceiverTransmitter.updateValuesAndValueListeners`
(src/index.js:918-952): one pass of the dirty loop (opaque listeners
cannot stage values, so the loop exits after one iteration), then each
global ChangeList listener is invoked exactly once with the change map
and the frame arrival time iff the map is nonempty. -/
def updateValuesAndValueListeners (s : EngineState) : EngineState × List EngineEvent :=
  let pr := updatePass s.packageArrivalTime s.store
  ({ s with store := pr.1 },
   pr.2.2 ++ (if pr.2.1 = [] then []
              else s.onList.map (fun lid => .changeListEv lid pr.2.1 s.packageArrivalTime)))

/-- `ReceiverTransmitter.discardValues` (src/index.js:954-961): clear the
staged value of exactly the descriptors indexed by victronMap. -/
def discardValues (s : EngineState) : EngineState :=
  { s with store := s.store.map (fun kd =>
      if kd.1 ∈ s.victron.map Prod.snd then (kd.1, { kd.2 with newValue := none }) else kd) }

/-- JavaScript `line.split('\t')` (src/index.js:1115). -/
def splitTab : List Nat → List (List Nat)
  | [] => [[]]
  | c :: r =>
    let rest := splitTab r
    if c = 9 then [] :: rest else (c :: rest.headI) :: rest.tail

/-- `RegularUpdateChecksum.update` (src/index.js:169-195): count the CR-LF
swallowed by the line splitter plus the first `lineLength` character
codes, where a Checksum line is truncated to the token, the tab and one
checksum byte; reading past the end of the line is NaN in JavaScript,
modelled as none. -/
def checksumUpdate (cs : Nat) (line : List Nat) : Option Nat :=
  let res := splitTab line
  let lineLength := if res.headI = codes "Checksum" then (codes "Checksum").length + 2
                    else line.length
  if line.length < lineLength then none
  else some (cs + 10 + 13 + (line.take lineLength).foldl (· + ·) 0)

/-- Modelled from the spec: `deviceCache.registerComponent` lives in
device_cache.js, which is not under src/; the spec says unknown telemetry
keys trigger dynamic registration of a generic descriptor (factor 1, no
formatter).  The fresh descriptor starts clean (no committed value, no
staged value, no listeners, threshold 0) and is indexed under its
telemetry key in both maps. -/
def registerComponent (s : EngineState) (key : List Nat) : EngineState :=
  { s with store := s.store ++ [(key, ⟨none, none, jsNumOfInt 0, jsNumOfInt 1, []⟩)],
           victron := s.victron ++ [(key, key)] }

/-- Association-list lookup, modelling map access. -/
def amLookup {α : Type} (m : List (List Nat × α)) (k : List Nat) : Option α :=
  (m.find? (fun kv => kv.1 = k)).map Prod.snd

/-- Update every store entry bound to `name` (JavaScript mutates the one
shared object all indexes reference). -/
def storeSet (store : List (List Nat × Descriptor)) (name : List Nat)
    (f : Descriptor → Descriptor) : List (List Nat × Descriptor) :=
  store.map (fun kd => if kd.1 = name then (kd.1, f kd.2) else kd)

/-- `ReceiverTransmitter.parseSerialInput` (src/index.js:1107-1218),
telemetry part; `now` stands for `Date.now()`.  The command-response
trailer of a Checksum line (src/index.js:1177-1192) is routed separately
through the transmitter model.  A Checksum line without a tab makes the
JavaScript handler throw at `res[1].length` after the discard and before
the accumulator reset, so the theorems below assume the line contains a
tab. -/
def parseSerialInput (now : Int) (s : EngineState) (line : List Nat) :
    EngineState × List EngineEvent :=
  if ¬ s.isOperational then ({ s with isOperational := true }, [])
  else
    let res := splitTab line
    if res.headI = [] then (s, [])
    else if res.headI = codes "Checksum" then
      let cs := checksumUpdate s.checksum (line.take ((codes "Checksum").length + 2))
      let r :=
        match cs with
        | some v => if v % 256 = 0 then updateValuesAndValueListeners s else (discardValues s, [])
        | none => (discardValues s, [])
      ({ r.1 with packageArrivalTime := 0, checksum := 0 }, r.2)
    else
      let s1 := { s with checksum := (checksumUpdate s.checksum line).getD 0 }
      let s2 := if s1.packageArrivalTime = 0 then { s1 with packageArrivalTime := now } else s1
      let s3 := if amLookup s2.victron res.headI = none then registerComponent s2 res.headI
                else s2
      match amLookup s3.victron res.headI with
      | some name =>
        let r1 := (res.get? 1).getD []
        let v : JsValue :=
          match jsParseInt r1 with
          | some n => if n = 0 then .str r1 else .num n
          | none => .str r1
        ({ s3 with store := storeSet s3.store name (fun d => { d with newValue := some v }) }, [])
      | none => (s3, [])

/-- The state of the C2 counterexample before the frame: one descriptor
`upperVoltage` holding 99 with delta threshold 5, indexed by telemetry
key `V`, and one registered ChangeList listener (id 7). -/
def c2State : EngineState :=
  ⟨[(codes "upperVoltage", ⟨some (.num 99), none, jsNumOfInt 5, jsNumOfInt 1, []⟩)],
   [(codes "V", codes "upperVoltage")], [7], 0, 0, true⟩

/-- First line of the C2 frames: `V<tab>100`. -/
def c2Line1 : List Nat := codes "V" ++ 9 :: codes "100"

/-- Checksum line making the C2 counterexample frame valid (byte 166
brings the byte sum to 1280, a multiple of 256). -/
def c2Line2 : List Nat := codes "Checksum" ++ [9, 166]

/-- The state for the C2 witness: `c2State` after staging `V 200`. -/
def c2StateW : EngineState :=
  (parseSerialInput 5 c2State (codes "V" ++ 9 :: codes "200")).1

/-- Valid Checksum line for the C2 witness (byte sum 1280). -/
def c2LineW : List Nat := codes "Checksum" ++ [9, 165]

/-- The state for the C7 counterexample: descriptors for the `SOC` and
`PID` telemetry keys. -/
def c7State : EngineState :=
  ⟨[(codes "stateOfCharge", ⟨none, none, jsNumOfInt 0, jsNumOfInt 1, []⟩),
    (codes "productId", ⟨none, none, jsNumOfInt 0, jsNumOfInt 1, []⟩)],
   [(codes "SOC", codes "stateOfCharge"), (codes "PID", codes "productId")], [], 0, 0, true⟩



/-- A pending request entry of the responseMap (src/index.js:1449-1456);
the resolve callback and the timer handle are represented by the machine
itself. -/
structure Pending where
  expect : List Nat
  orgCmdId : List Nat
  doRetry : Int
deriving DecidableEq

/-- Port writes recorded as events. -/
inductive TxEvent where
  | write (msg : List Nat) (time : Nat)
deriving DecidableEq

/-- The wire frame of the restart command, written directly to the port
by `ReceiverTransmitter.restart` (src/index.js:1297-1301):
`package (append_checksum('6'))`. -/
def restartFrame : List Nat := codes ":64F\n"

/-- The transmitter state: the command queue, the responseMap, the
current time, the single pending response timer (deadline and captured
command) and the recorded port writes. -/
structure TxState where
  q : List Command
  responseMap : List (List Nat × Pending)
  now : Nat
  timer : Option (Nat × Command)
  events : List TxEvent
deriving DecidableEq

/-- JavaScript `map[id] = value`: replace the binding or append it. -/
def amInsert (m : List (List Nat × Pending)) (k : List Nat) (v : Pending) :
    List (List Nat × Pending) :=
  if (m.find? (fun kv => kv.1 = k)).isSome then
    m.map (fun kv => if kv.1 = k then (k, v) else kv)
  else m ++ [(k, v)]

/-- JavaScript `delete map[id]`. -/
def amErase (m : List (List Nat × Pending)) (k : List Nat) :
    List (List Nat × Pending) :=
  m.filter (fun kv => kv.1 ≠ k)

/-- `runMessageQ` plus `getExpectedResponseTo` on an operational port
(src/index.js:1222-1253 and 1423-1460): promote the head to priority 1,
compute the expected response and its identifier-length prefix, start
the response timer, create the pending entry under the response prefix
(decrementing `doRetry` when the prefix is already pending, that is, on
a retry), and write the framed command to the port. -/
def sendHead (T : Nat) (s : TxState) : TxState :=
  match s.q with
  | [] => s
  | c :: rest =>
    let c1 := { c with priority := 1 }
    let expectedResponse := getResponse c1
    let responseId := expectedResponse.take c1.id.length
    let newRetries : Int :=
      match amLookup s.responseMap responseId with
      | some p => p.doRetry - 1
      | none => c1.maxRetries
    { q := c1 :: rest,
      responseMap := amInsert s.responseMap responseId
        ⟨expectedResponse, c1.id, newRetries⟩,
      now := s.now,
      timer := some (s.now + T, c1),
      events := s.events ++ [.write (package c1.cmdStr) s.now] }

/-- `ReceiverTransmitter.responseTimeoutHandler` (src/index.js:1310-1352)
at timer expiry, followed by the `runMessageQ` re-drive: advance time to
the deadline; when the timed-out command's identifier (`command.getId()`,
not the response prefix the map is keyed by) has a pending entry, write
the restart frame if its retry counter is a multiple of five and the
cached Relay value (`victronMap.get('Relay').value`, the `relay`
parameter) is the string OFF, and on an exhausted counter remove the
pending entry and delete the command from the queue; finally, when the
queue is nonempty, its head is sent (again). -/
def timeoutFire (T : Nat) (relay : Option JsValue) (s : TxState) : TxState :=
  match s.timer with
  | none => s
  | some tc =>
    let s1 := { s with now := tc.1, timer := none }
    let commandId := tc.2.id
    let s2 : TxState :=
      match amLookup s1.responseMap commandId with
      | some p =>
        let s1a :=
          if p.doRetry.tmod 5 = 0 ∧ relay = some (.str (codes "OFF")) then
            { s1 with events := s1.events ++ [.write restartFrame s1.now] }
          else s1
        if p.doRetry ≤ 0 then
          { s1a with responseMap := amErase s1a.responseMap commandId,
                     q := (qDelete s1a.q commandId).2 }
        else s1a
      | none => s1
    if s2.q = [] then s2 else sendHead T s2

/-- JavaScript strict equality between an object and a string is always
false: the guard `bmvdata.relayState === 'OFF'` (src/index.js:1008)
compares the relayState cache object itself, not its `.value` field,
with a string. -/
def jsStrictEqObjectString (_relayStateDescr : Descriptor) (_strval : List Nat) : Bool :=
  false

/-- The device-refused branch of `ReceiverTransmitter.evaluate`
(src/index.js:1000-1011): on a response whose prefix mismatches the
pending expectation, restart when `bmvdata.relayState === 'OFF'` (always
false, see `jsStrictEqObjectString`), and then an unguarded duplicate
`this.restart()` call on the next line always writes the restart frame. -/
def evaluateRefusedBranch (relayStateDescr : Descriptor) (s : TxState) : TxState :=
  let s1 :=
    if jsStrictEqObjectString relayStateDescr (codes "OFF") then
      { s with events := s.events ++ [.write restartFrame s.now] }
    else s
  { s1 with events := s1.events ++ [.write restartFrame s1.now] }

/-- The ping command with maxRetries 2, as built by the constructor. -/
def pingCmd : Command := ⟨0, 2, codes "154", codes "1"⟩

/-- A relayState descriptor whose committed value is the string ON. -/
def relayOnDescr : Descriptor :=
  ⟨some (.str (codes "ON")), none, jsNumOfInt 0, jsNumOfInt 1, []⟩

/-- The get command for register 0x1000 with maxRetries 2, as built by the
constructor: wire string 70010003E, identifier 70010. -/
def c4wCmd : Command := ⟨0, 2, codes "70010003E", codes "70010"⟩

/-- The schedule of port writes produced by the first `k + 1` sends of a
command frame under the timeout loop: one write of the frame at each
multiple of the timeout `T` up to `k * T`, preceded (from the second
send on) by a write of the restart frame whenever the retry counter at
that timeout, `n + 1 - j`, is a multiple of five and the cached Relay
value is the string OFF (src/index.js:1319-1343). -/
def retryWrites (cmdFrame : List Nat) (T : Nat) (relay : Option JsValue)
    (n k : Nat) : List TxEvent :=
  (List.range (k + 1)).flatMap (fun j =>
    (if j ≠ 0 ∧ (n + 1 - j) % 5 = 0 ∧ relay = some (.str (codes "OFF")) then
      [TxEvent.write restartFrame (j * T)]
    else []) ++
    [TxEvent.write cmdFrame (j * T)])

theorem parseHexDigit_toUpperCode (c : Nat) :
    parseHexDigit (toUpperCode c) = parseHexDigit c := by
  unfold toUpperCode parseHexDigit
  split_ifs <;> first
    | rfl
    | omega

theorem byteSum_map_upper : ∀ l : List Nat, byteSum (l.map toUpperCode) = byteSum l
  | [] => rfl
  | [a] => by simp [byteSum]
  | a :: b :: t => by
    simp only [List.map_cons, byteSum, parseHexDigit_toUpperCode, byteSum_map_upper t]

theorem byteSum_append_pair (a b va vb : Nat) (ha : parseHexDigit a = some va)
    (hb : parseHexDigit b = some vb) :
    ∀ (l : List Nat) (s : Nat), byteSum l = some s →
      byteSum (l ++ [a, b]) = some (s + (16 * va + vb))
  | [], s, hs => by
    simp [byteSum] at hs
    obtain rfl := hs.symm
    simp [byteSum, ha, hb]
  | [x], s, hs => by simp [byteSum] at hs
  | x :: y :: t, s, hs => by
    simp only [byteSum, Option.bind_eq_some, Option.map_eq_some'] at hs
    obtain ⟨vx, hx, vy, hy, st, hst, hsum⟩ := hs
    have ih := byteSum_append_pair a b va vb ha hb t st hst
    simp only [List.cons_append, List.append_eq, byteSum, hx, hy, ih, Option.some_bind,
      Option.map_some', Option.some.injEq]
    omega

theorem hexReduceGo_byteSum : ∀ (l : List Nat) (s : Nat), byteSum l = some s →
    ∀ idx total : Nat, idx % 2 = 0 → hexReduceGo l idx total = some (total + s)
  | [], s, hs, idx, total, _ => by
    simp [byteSum] at hs
    obtain rfl := hs.symm
    simp [hexReduceGo]
  | [x], s, hs, _, _, _ => by simp [byteSum] at hs
  | x :: y :: t, s, hs, idx, total, hidx => by
    simp only [byteSum, Option.bind_eq_some, Option.map_eq_some'] at hs
    obtain ⟨vx, hx, vy, hy, st, hst, hsum⟩ := hs
    have h1 : (idx + 1) % 2 = 1 := by omega
    have ih := hexReduceGo_byteSum t st hst (idx + 1 + 1) (total + 16 * vx + vy) (by omega)
    simp only [hexReduceGo, hx, hy, hidx, h1, List.append_eq]
    simp only [show ((0 : Nat) = 0) = True by simp, show ((1 : Nat) = 0) = False by simp,
      if_true, if_false]
    rw [ih]
    simp only [Option.some.injEq]
    omega

theorem byteSum_some_of_hex : ∀ l : List Nat, (∀ x ∈ l, (parseHexDigit x).isSome) →
    l.length % 2 = 0 → ∃ s, byteSum l = some s
  | [], _, _ => ⟨0, rfl⟩
  | [x], _, h => by simp at h
  | x :: y :: t, hhex, h => by
    obtain ⟨s, hs⟩ := byteSum_some_of_hex t (fun z hz => hhex z (by simp [hz]))
      (by simp only [List.length_cons] at h; omega)
    obtain ⟨vx, hx⟩ := Option.isSome_iff_exists.mp (hhex x (by simp))
    obtain ⟨vy, hy⟩ := Option.isSome_iff_exists.mp (hhex y (by simp))
    exact ⟨16 * vx + vy + s, by simp [byteSum, hx, hy, hs]⟩

theorem neg_ofNat_tmod (m : Nat) (n : Int) : (-(m : Int)).tmod n = -((m : Int).tmod n) := by
  cases m with
  | zero => simp
  | succ k =>
    cases n with
    | ofNat j => rfl
    | negSucc j => rfl

theorem jsChecksumByte_eq_emod (s : Nat) :
    (jsChecksumByte s : Int) = (85 - (s : Int)) % 256 := by
  simp only [jsChecksumByte]
  by_cases h : s ≤ 85
  · rw [Int.tmod_eq_emod (by omega) (by omega)]
    have h0 : (0 : Int) ≤ (85 - (s : Int)) % 256 := Int.emod_nonneg _ (by norm_num)
    rw [if_neg (by omega)]
    omega
  · have he : (85 - (s : Int)) = -(((s - 85 : Nat) : Int)) := by omega
    rw [he, neg_ofNat_tmod, Int.tmod_eq_emod (by positivity) (by norm_num)]
    have h0 : (0 : Int) ≤ ((s - 85 : Nat) : Int) % 256 := Int.emod_nonneg _ (by norm_num)
    have h1 : ((s - 85 : Nat) : Int) % 256 < 256 := Int.emod_lt_of_pos _ (by norm_num)
    split_ifs with hlt <;> omega

theorem jsChecksumByte_lt (s : Nat) : jsChecksumByte s < 256 := by
  have h := jsChecksumByte_eq_emod s
  have h1 : (85 - (s : Int)) % 256 < 256 := Int.emod_lt_of_pos _ (by norm_num)
  omega

theorem jsChecksumByte_add (s : Nat) : (s + jsChecksumByte s) % 256 = 85 := by
  have h := jsChecksumByte_eq_emod s
  have h0 : (0 : Int) ≤ (85 - (s : Int)) % 256 := Int.emod_nonneg _ (by norm_num)
  omega

theorem natToHexCodesAux_small (fuel n : Nat) (h : n < 16) (hf : 0 < fuel) :
    natToHexCodesAux fuel n = [hexDigitCode n] := by
  cases fuel with
  | zero => omega
  | succ f => simp [natToHexCodesAux, h]

theorem sliceLast2_digits (n : Nat) (h : n < 256) :
    sliceLast2 (48 :: natToHexCodes n) = [hexDigitCode (n / 16), hexDigitCode (n % 16)] := by
  by_cases h16 : n < 16
  · have e : natToHexCodes n = [hexDigitCode n] :=
      natToHexCodesAux_small _ _ h16 (by omega)
    rw [Nat.div_eq_of_lt h16, Nat.mod_eq_of_lt h16, e]
    simp [sliceLast2, hexDigitCode]
  · have e1 : natToHexCodes n = natToHexCodesAux n (n / 16) ++ [hexDigitCode (n % 16)] := by
      unfold natToHexCodes
      rw [show n + 1 = n + 1 from rfl]
      simp [natToHexCodesAux, h16]
    have e2 : natToHexCodesAux n (n / 16) = [hexDigitCode (n / 16)] :=
      natToHexCodesAux_small _ _ (by omega) (by omega)
    rw [e1, e2]
    simp [sliceLast2]

theorem parseHexDigit_hexDigitCode (k : Nat) (h : k < 16) :
    parseHexDigit (hexDigitCode k) = some k := by
  unfold hexDigitCode parseHexDigit
  split_ifs <;> first
    | omega
    | (simp only [Option.some.injEq]; omega)

theorem endianSwap_four (a b c d : Nat) :
    endianSwap [a, b, c, d] 2 = [toUpperCode c, toUpperCode d, toUpperCode a, toUpperCode b] := by
  rfl

theorem append_checksum_sum (body : List Nat)
    (hhex : ∀ x ∈ body, (parseHexDigit x).isSome)
    (hlen : body.length % 2 = 1) :
    ∃ w s, append_checksum body = some w ∧
      byteSum (48 :: w) = some s ∧ s % 256 = 85 := by
  obtain ⟨s0, hs0⟩ := byteSum_some_of_hex (48 :: body)
    (by
      intro z hz
      rcases List.mem_cons.mp hz with h | h
      · subst h; simp [parseHexDigit]
      · exact hhex z h)
    (by simp only [List.length_cons]; omega)
  have hred : hexReduce (48 :: body) = some s0 := by
    have := hexReduceGo_byteSum (48 :: body) s0 hs0 0 0 (by omega)
    simpa [hexReduce] using this
  set cs := jsChecksumByte s0 with hcs
  have hlt : cs < 256 := jsChecksumByte_lt s0
  have hdig := sliceLast2_digits cs hlt
  refine ⟨body ++ [toUpperCode (hexDigitCode (cs / 16)), toUpperCode (hexDigitCode (cs % 16))],
    s0 + (16 * (cs / 16) + cs % 16), ?_, ?_, ?_⟩
  · simp only [append_checksum, hred, Option.map_some', hdig, List.map_cons, List.map_nil]
  · have h1 : parseHexDigit (toUpperCode (hexDigitCode (cs / 16))) = some (cs / 16) := by
      rw [parseHexDigit_toUpperCode, parseHexDigit_hexDigitCode _ (by omega)]
    have h2 : parseHexDigit (toUpperCode (hexDigitCode (cs % 16))) = some (cs % 16) := by
      rw [parseHexDigit_toUpperCode, parseHexDigit_hexDigitCode _ (by omega)]
    have := byteSum_append_pair _ _ _ _ h1 h2 (48 :: body) s0 hs0
    simpa using this
  · have : 16 * (cs / 16) + cs % 16 = cs := by omega
    rw [this]
    exact jsChecksumByte_add s0

/-- Claim C1: for every command built by the facade (a single hex command
digit, an empty address or a well-formed 0x-prefixed 16-bit address, and
an even-length hex value), the wire body produced by `createMessage` with
its appended two-digit checksum satisfies: reading `0` + body as nibble
pairs, the byte sum is congruent to `0x55` modulo 256. -/
theorem victron_C1 (c : Nat) (address value : List Nat)
    (hc : (parseHexDigit c).isSome)
    (haddr : address = [] ∨ ∃ a1 a2 a3 a4,
      address = [48, 120, a1, a2, a3, a4] ∧
      (parseHexDigit a1).isSome ∧ (parseHexDigit a2).isSome ∧
      (parseHexDigit a3).isSome ∧ (parseHexDigit a4).isSome)
    (hval : ∀ x ∈ value, (parseHexDigit x).isSome)
    (hvlen : value.length % 2 = 0) :
    ∃ body s, createMessage [c] address value = some body ∧
      byteSum (48 :: body) = some s ∧ s % 256 = 85 := by
  rcases haddr with rfl | ⟨a1, a2, a3, a4, rfl, h1, h2, h3, h4⟩
  · have hb : ∀ x ∈ [c] ++ value, (parseHexDigit x).isSome := by
      intro z hz
      rcases List.mem_append.mp hz with h | h
      · simp at h; subst h; exact hc
      · exact hval z h
    obtain ⟨w, s, hw, hsum, hmod⟩ := append_checksum_sum ([c] ++ value) hb
      (by simp only [List.length_append, List.length_cons, List.length_nil]; omega)
    refine ⟨w.map toUpperCode, s, ?_, ?_, hmod⟩
    · simp only [createMessage]
      norm_num
      exact ⟨w, by simpa using hw, rfl⟩
    · rw [show (48 :: w.map toUpperCode) = (48 :: w).map toUpperCode by simp [toUpperCode]]
      rw [byteSum_map_upper]
      exact hsum
  · have hb : ∀ x ∈ [c] ++ [toUpperCode a3, toUpperCode a4, toUpperCode a1, toUpperCode a2] ++
        [48, 48] ++ value, (parseHexDigit x).isSome := by
      intro z hz
      simp only [List.mem_append, List.mem_cons, List.not_mem_nil, or_false] at hz
      rcases hz with ((rfl | rfl | rfl | rfl | rfl) | rfl | rfl) | h
      · exact hc
      · rw [parseHexDigit_toUpperCode]; exact h3
      · rw [parseHexDigit_toUpperCode]; exact h4
      · rw [parseHexDigit_toUpperCode]; exact h1
      · rw [parseHexDigit_toUpperCode]; exact h2
      · simp [parseHexDigit]
      · simp [parseHexDigit]
      · exact hval z h
    obtain ⟨w, s, hw, hsum, hmod⟩ := append_checksum_sum _ hb
      (by
        simp only [List.length_append, List.length_cons, List.length_nil]
        omega)
    refine ⟨w.map toUpperCode, s, ?_, ?_, hmod⟩
    · simp only [createMessage]
      norm_num
      rw [endianSwap_four a1 a2 a3 a4]
      exact ⟨w, by simpa using hw, rfl⟩
    · rw [show (48 :: w.map toUpperCode) = (48 :: w).map toUpperCode by simp [toUpperCode]]
      rw [byteSum_map_upper]
      exact hsum

/-- Witness for `victron_C1` at the get command for register 0xED8D. -/
theorem victron_C1_witness :
    ∃ body s, createMessage [55] (codes "0xED8D") [] = some body ∧
      byteSum (48 :: body) = some s ∧ s % 256 = 85 :=
  victron_C1 55 (codes "0xED8D") [] (by decide)
    (Or.inr ⟨69, 68, 56, 68, by decide, by decide, by decide, by decide⟩)
    (by simp) (by decide)

/-- The claim of C6 fails on 4-byte inputs: `endianSwap` truncates an
8-hex-digit string to four characters (the second swap branch replaces
the whole string and is then unreachable), so the double swap of
`01234567` yields `0000`, not the original string. -/
theorem victron_C6_endianSwap_4byte_broken :
    endianSwap (endianSwap (codes "01234567") 4) 4 = codes "0000" ∧
    endianSwap (codes "01234567") 4 = codes "2301" ∧
    codes "0000" ≠ codes "01234567" := by
  refine ⟨by decide, by decide, by decide⟩

/-- The claim of C9 is false at its own input: the checksum appended to
the body `7ED8D00` is `D4`, not `A1` (indeed `0` + body + `A1` sums to
`0x22`, not `0x55`, modulo 256). -/
theorem victron_C9_counterexample :
    append_checksum (codes "7ED8D00") = some (codes "7ED8D00D4") ∧
    codes "7ED8D00D4" ≠ codes "7ED8D00A1" ∧
    (byteSum (codes "07ED8D00A1")).map (· % 256) = some 34 := by
  refine ⟨by decide, by decide, by decide⟩

/-- Claim C9 amended: `append_checksum` applied to the body `7ED8D00`
appends the checksum digits `D4`, the framed wire string is
`:7ED8D00D4` followed by a newline, and the byte sum of `0` + body +
checksum is congruent to `0x55` modulo 256. -/
theorem victron_C9_amended :
    append_checksum (codes "7ED8D00") = some (codes "7ED8D00D4") ∧
    package (codes "7ED8D00D4") = codes ":7ED8D00D4\n" ∧
    (byteSum (codes "07ED8D00D4")).map (· % 256) = some 85 := by
  refine ⟨by decide, by decide, by decide⟩

/-- The claim of C10 is false for negative arguments: a `Command`
constructed with `maxRetries = -1` ends up with `maxRetries = 0`, so a
zero-retry command can be created through the constructor. -/
theorem victron_C10_counterexample :
    (mkCommand (codes "7") (codes "0x1000") [] none (some (-1))).map Command.maxRetries =
      some 0 := by
  decide

/-- Claim C10 amended: a falsy (0, null, undefined) `maxRetries` argument
yields the configured default 3 and a falsy priority argument yields the
configured default priority; the stored priority is always clamped into
`{0, 1}`; a positive `maxRetries` argument is kept, but a negative one is
clamped to 0, so zero-retry commands are constructible. -/
theorem victron_C10_amended (cmd address value : List Nat) (p mr : Option Int)
    (c : Command) (h : mkCommand cmd address value p mr = some c) :
    (jsTruthyInt mr = false → c.maxRetries = cmdDefaultMaxRetries) ∧
    (jsTruthyInt p = false → c.priority = cmdDefaultPriority) ∧
    (0 ≤ c.priority ∧ c.priority ≤ 1) ∧
    (∀ m : Int, mr = some m → 0 < m → c.maxRetries = m) ∧
    (∀ m : Int, mr = some m → m < 0 → c.maxRetries = 0) := by
  unfold mkCommand at h
  rcases Option.map_eq_some'.mp h with ⟨s, _, hc⟩
  subst hc
  refine ⟨?_, ?_, ?_, ?_, ?_⟩
  · intro hmr
    simp [setMaxRetries, hmr, cmdDefaultMaxRetries]
  · intro hp
    simp [setPriority, hp, cmdDefaultPriority]
  · constructor
    · simp [setPriority]
    · simp only [setPriority]
      rcases p with _ | n <;> simp [jsTruthyInt, cmdDefaultPriority]
  · intro m hm hpos
    subst hm
    simp [setMaxRetries, jsTruthyInt]
    omega
  · intro m hm hneg
    subst hm
    simp [setMaxRetries, jsTruthyInt]
    omega

/-- Witness for `victron_C10_amended` at the default ping command. -/
theorem victron_C10_amended_witness :
    (⟨0, 3, codes "154", codes "1"⟩ : Command).maxRetries = cmdDefaultMaxRetries ∧
    0 ≤ (⟨0, 3, codes "154", codes "1"⟩ : Command).priority := by
  have h := victron_C10_amended (codes "1") [] [] none none
    ⟨0, 3, codes "154", codes "1"⟩ (by decide)
  exact ⟨h.1 (by decide), h.2.2.1.1⟩

theorem ifpGo_pos (q : List Command) (p : Int) : ∀ i, 1 ≤ ifpGo q p i
  | 0 => le_refl 1
  | i + 1 => by
    simp only [ifpGo]
    split
    · exact ifpGo_pos q p i
    · omega

theorem ifpGo_le_len (q : List Command) (p : Int) :
    ∀ i, i < q.length → ifpGo q p i ≤ q.length
  | 0, h => by simpa [ifpGo] using h
  | i + 1, h => by
    simp only [ifpGo]
    split
    · exact ifpGo_le_len q p i (by omega)
    · omega

theorem ifpGo_below (q : List Command) (p : Int) :
    ∀ i, i < q.length → ∀ j, ifpGo q p i ≤ j → j ≤ i → priorityAt q j < p
  | 0, _, j, hj1, hj2 => by simp [ifpGo] at hj1; omega
  | i + 1, h, j, hj1, hj2 => by
    by_cases h1 : ((q[i + 1]?).map Command.priority).getD 0 < p
    · simp only [ifpGo, if_pos h1] at hj1
      rcases Nat.lt_or_ge j (i + 1) with hlt | hge
      · exact ifpGo_below q p i (by omega) j hj1 (by omega)
      · have hje : j = i + 1 := by omega
        subst hje
        simpa [priorityAt] using h1
    · simp only [ifpGo, if_neg h1] at hj1
      omega

theorem ifpGo_at (q : List Command) (p : Int) :
    ∀ i, 1 < ifpGo q p i → p ≤ priorityAt q (ifpGo q p i - 1)
  | 0, h => by simp [ifpGo] at h
  | i + 1, h => by
    by_cases h1 : ((q[i + 1]?).map Command.priority).getD 0 < p
    · simp only [ifpGo, if_pos h1] at h ⊢
      exact ifpGo_at q p i h
    · simp only [ifpGo, if_neg h1]
      have he : i + 2 - 1 = i + 1 := by omega
      rw [he]
      push_neg at h1
      simpa [priorityAt] using h1

theorem indexForPriority_pos (q : List Command) (p : Int) (h : q ≠ []) :
    1 ≤ indexForPriority q p ∧ indexForPriority q p ≤ q.length := by
  have hl : ¬ q.length = 0 := by simpa using h
  simp only [indexForPriority, if_neg hl]
  exact ⟨ifpGo_pos q p _, ifpGo_le_len q p _ (by omega)⟩

theorem indexForPriority_below (q : List Command) (p : Int) (j : Nat)
    (h1 : indexForPriority q p ≤ j) (h2 : j < q.length) : priorityAt q j < p := by
  have hne : ¬ q.length = 0 := by omega
  simp only [indexForPriority, if_neg hne] at h1
  exact ifpGo_below q p (q.length - 1) (by omega) j h1 (by omega)

theorem indexForPriority_at (q : List Command) (p : Int)
    (h : 1 < indexForPriority q p) : p ≤ priorityAt q (indexForPriority q p - 1) := by
  have hne : ¬ q.length = 0 := by
    intro he
    simp [indexForPriority, he] at h
  simp only [indexForPriority, if_neg hne] at h ⊢
  exact ifpGo_at q p _ h

theorem priorityAt_eq (q : List Command) (i : Nat) (h : i < q.length) :
    priorityAt q i = (q.get ⟨i, h⟩).priority := by
  simp [priorityAt, List.getElem?_eq_getElem h]

theorem tailSorted_iff (q : List Command) :
    TailSorted q ↔
      ∀ i j, 1 ≤ i → i ≤ j → j < q.length → priorityAt q j ≤ priorityAt q i := by
  rw [TailSorted, List.pairwise_iff_getElem]
  constructor
  · intro hp i j hi hij hj
    rcases Nat.eq_or_lt_of_le hij with rfl | hlt
    · exact le_refl _
    · obtain ⟨i', rfl⟩ : ∃ k, i = k + 1 := ⟨i - 1, by omega⟩
      obtain ⟨j', rfl⟩ : ∃ k, j = k + 1 := ⟨j - 1, by omega⟩
      have hj' : j' < q.tail.length := by simp only [List.length_tail]; omega
      have hi' : i' < q.tail.length := by simp only [List.length_tail]; omega
      have hle := hp i' j' hi' hj' (by omega)
      rw [List.getElem_tail, List.getElem_tail] at hle
      rw [priorityAt_eq q (i' + 1) (by omega), priorityAt_eq q (j' + 1) hj]
      simpa [List.get_eq_getElem] using hle
  · intro hp i j hi hj hij
    have hjq : j + 1 < q.length := by
      have := hj
      simp [List.length_tail] at this
      omega
    have := hp (i + 1) (j + 1) (by omega) (by omega) hjq
    rw [priorityAt_eq q (i + 1) (by omega), priorityAt_eq q (j + 1) hjq] at this
    simpa [List.get_eq_getElem, List.getElem_tail] using this

theorem length_insertPriority (q : List Command) (c : Command) (l : Nat) (hl : l ≤ q.length) :
    (insertPriority q c l).length = q.length + 1 := by
  simp [insertPriority]
  omega

theorem priorityAt_insertPriority (q : List Command) (c : Command) (l : Nat)
    (hl : l ≤ q.length) (i : Nat) :
    priorityAt (insertPriority q c l) i =
      if i < l then priorityAt q i else if i = l then c.priority else priorityAt q (i - 1) := by
  unfold insertPriority priorityAt
  rcases Nat.lt_trichotomy i l with hlt | rfl | hgt
  · rw [List.getElem?_append_left (by simp only [List.length_take]; omega)]
    rw [List.getElem?_take_of_lt hlt]
    simp [hlt]
  · rw [List.getElem?_append_right (by simp only [List.length_take]; omega)]
    have he : i - (q.take i).length = 0 := by simp only [List.length_take]; omega
    rw [he]
    simp
  · rw [List.getElem?_append_right (by simp only [List.length_take]; omega)]
    have he : i - (q.take l).length = (i - l - 1) + 1 := by
      simp only [List.length_take]
      omega
    rw [he]
    simp only [List.getElem?_cons_succ, List.getElem?_drop]
    have he2 : l + (i - l - 1) = i - 1 := by omega
    rw [he2]
    have h1 : ¬ i < l := by omega
    have h2 : ¬ i = l := by omega
    simp [h1, h2]

theorem priorityAt_set (q : List Command) (c : Command) (k i : Nat) (hk : k < q.length) :
    priorityAt (q.set k c) i = if i = k then c.priority else priorityAt q i := by
  unfold priorityAt
  rcases eq_or_ne i k with rfl | hne
  · simp [List.getElem?_set_self hk]
  · simp [List.getElem?_set_ne hne.symm, hne]

theorem tailSorted_Q_push_back (comp : Bool) (q : List Command) (c : Command)
    (hs : TailSorted q) : TailSorted (Q_push_back comp q c) := by
  rcases eq_or_ne q [] with rfl | hne
  · simp only [Q_push_back, indexForPriority, List.length_nil, if_pos rfl]
    norm_num [insertPriority, TailSorted]
  · have hpos := indexForPriority_pos q c.priority hne
    set l := indexForPriority q c.priority with hldef
    rw [tailSorted_iff] at hs ⊢
    have hql : 0 < q.length := List.length_pos.mpr hne
    simp only [Q_push_back]
    rw [← hldef]
    split
    · next hA =>
      obtain ⟨_, hl1, _⟩ := hA
      intro i j hi hij hj
      rw [List.length_set] at hj
      rw [priorityAt_set q c (l - 1) i (by omega), priorityAt_set q c (l - 1) j (by omega)]
      rcases eq_or_ne j (l - 1) with rfl | hjne
      · rcases eq_or_ne i (l - 1) with rfl | hine
        · simp
        · rw [if_neg hine, if_pos rfl]
          have h1 := indexForPriority_at q c.priority (by omega)
          rw [← hldef] at h1
          have h2 := hs i (l - 1) hi (by omega) (by omega)
          exact le_trans h1 h2
      · rw [if_neg hjne]
        rcases eq_or_ne i (l - 1) with rfl | hine
        · rw [if_pos rfl]
          exact le_of_lt (indexForPriority_below q c.priority j (by omega) hj)
        · rw [if_neg hine]
          exact hs i j hi hij hj
    · split
      · intro i j hi hij hj
        rw [length_insertPriority q c l (by omega)] at hj
        rw [priorityAt_insertPriority q c l (by omega) i,
          priorityAt_insertPriority q c l (by omega) j]
        rcases Nat.lt_trichotomy j l with hjl | hjeq | hjg
        · rw [if_pos hjl, if_pos (by omega)]
          exact hs i j hi hij (by omega)
        · rw [if_neg (by omega), if_pos hjeq]
          rcases eq_or_ne i j with rfl | hine
          · rw [if_neg (by omega), if_pos hjeq]
          · have hil : i < l := by omega
            rw [if_pos hil]
            have h1 := indexForPriority_at q c.priority (by omega)
            rw [← hldef] at h1
            have h2 := hs i (l - 1) hi (by omega) (by omega)
            exact le_trans h1 h2
        · rw [if_neg (by omega), if_neg (by omega)]
          have hjq : j - 1 < q.length := by omega
          have hbelow := indexForPriority_below q c.priority (j - 1) (by omega) hjq
          rcases Nat.lt_trichotomy i l with hil | rfl | hig
          · rw [if_pos hil]
            have h1 := indexForPriority_at q c.priority (by omega)
            rw [← hldef] at h1
            have h2 := hs i (l - 1) hi (by omega) (by omega)
            exact le_trans (le_of_lt hbelow) (le_trans h1 h2)
          · rw [if_neg (by omega), if_pos rfl]
            exact le_of_lt hbelow
          · rw [if_neg (by omega), if_neg (by omega)]
            exact hs (i - 1) (j - 1) (by omega) (by omega) hjq
      · exact hs

theorem head_Q_push_back (comp : Bool) (q : List Command) (c : Command) (hne : q ≠ []) :
    (Q_push_back comp q c)[0]? = q[0]? := by
  have hpos := indexForPriority_pos q c.priority hne
  set l := indexForPriority q c.priority with hldef
  simp only [Q_push_back]
  rw [← hldef]
  split
  · next hA =>
    obtain ⟨_, hl1, _⟩ := hA
    exact List.getElem?_set_ne (by omega)
  · split
    · show (insertPriority q c l)[0]? = q[0]?
      unfold insertPriority
      rw [List.getElem?_append_left (by simp only [List.length_take]; omega)]
      exact List.getElem?_take_of_lt (by omega)
    · rfl

theorem tailSorted_eraseIdx (q : List Command) (i : Nat) (hs : TailSorted q) :
    TailSorted (q.eraseIdx i) := by
  unfold TailSorted at hs ⊢
  have hsub : (q.eraseIdx i).tail.Sublist q.tail := by
    cases q with
    | nil => simp
    | cons x t =>
      cases i with
      | zero => simpa using List.tail_sublist t
      | succ k => simpa [List.eraseIdx] using List.eraseIdx_sublist t k
  exact hs.sublist hsub

theorem mem_Q_push_back (comp : Bool) (q : List Command) (c d : Command)
    (hd : d ∈ Q_push_back comp q c) : d ∈ q ∨ d = c := by
  simp only [Q_push_back] at hd
  split at hd
  · exact List.mem_or_eq_of_mem_set hd
  · split at hd
    · unfold insertPriority at hd
      rcases List.mem_append.mp hd with h | h
      · exact Or.inl (List.mem_of_mem_take h)
      · rcases List.mem_cons.mp h with h | h
        · exact Or.inr h
        · exact Or.inl (List.mem_of_mem_drop h)
    · exact Or.inl hd

theorem qReachable_priority_bounds (q : List Command) (h : QReachable q) :
    ∀ c ∈ q, 0 ≤ c.priority ∧ c.priority ≤ 1 := by
  induction h with
  | empty => simp
  | push q c comp hq h0 h1 ih =>
    intro d hd
    rcases mem_Q_push_back comp q c d hd with h | rfl
    · exact ih d h
    · exact ⟨h0, h1⟩
  | remove q id hq ih =>
    intro d hd
    apply ih
    unfold qDelete at hd
    rcases hf : q.findIdx? (fun c => c.id = id) with _ | i <;> rw [hf] at hd
    · exact hd
    · exact (List.eraseIdx_sublist q i).subset hd

theorem qReachable_tailSorted (q : List Command) (h : QReachable q) : TailSorted q := by
  induction h with
  | empty => exact List.Pairwise.nil
  | push q c comp hq h0 h1 ih => exact tailSorted_Q_push_back comp q c ih
  | remove q id hq ih =>
    unfold qDelete
    rcases hf : q.findIdx? (fun c => c.id = id) with _ | i
    · rw [hf]
      exact ih
    · rw [hf]
      exact tailSorted_eraseIdx q i ih

/-- The claim of C5 fails at the head: pushing a default-priority (0) get
command into the empty queue and then a priority-1 get command yields the
reachable queue `[A, B]` whose priorities increase from index 0 to
index 1, so priorities are not non-increasing from the head. -/
theorem victron_C5_counterexample :
    mkCommand (codes "7") (codes "0x1000") [] none none = some cmdGetA ∧
    mkCommand (codes "7") (codes "0x1001") [] (some 1) none = some cmdGetB ∧
    QReachable [cmdGetA, cmdGetB] ∧
    cmdGetA.priority = 0 ∧ cmdGetB.priority = 1 := by
  refine ⟨by decide, by decide, ?_, by decide, by decide⟩
  have h1 : Q_push_back true [] cmdGetA = [cmdGetA] := by decide
  have h2 : Q_push_back true [cmdGetA] cmdGetB = [cmdGetA, cmdGetB] := by decide
  have r1 := QReachable.push [] cmdGetA true QReachable.empty (by decide) (by decide)
  rw [h1] at r1
  have r2 := QReachable.push [cmdGetA] cmdGetB true r1 (by decide) (by decide)
  rw [h2] at r2
  exact r2

/-- Claim C5 amended: in every queue state reachable by `Q_push_back`
insertions (with or without compression) and deletions, priorities are
non-increasing from index 1 (the first waiter behind the already-sent
head) to the tail -- the head itself may carry a lower priority; no
insertion displaces the element at index 0 of a nonempty queue; a
priority-0 command is assigned the tail insertion index `q.length` (an
append), and a priority-1 command is inserted immediately after the last
priority-1 entry: the entry before its insertion index has priority 1
and every entry from the insertion index on has strictly smaller
priority. -/
theorem victron_C5_amended (q : List Command) (h : QReachable q) :
    TailSorted q ∧
    (∀ (comp : Bool) (c : Command), q ≠ [] → (Q_push_back comp q c)[0]? = q[0]?) ∧
    (∀ c : Command, c.priority = 0 → indexForPriority q c.priority = q.length ∧
      insertPriority q c (indexForPriority q c.priority) = q ++ [c]) ∧
    (∀ c : Command, c.priority = 1 → 1 < indexForPriority q c.priority →
      priorityAt q (indexForPriority q c.priority - 1) = 1) ∧
    (∀ (c : Command) (j : Nat), indexForPriority q c.priority ≤ j → j < q.length →
      priorityAt q j < c.priority) := by
  have hbounds := qReachable_priority_bounds q h
  refine ⟨qReachable_tailSorted q h, fun comp c => head_Q_push_back comp q c, ?_, ?_, ?_⟩
  · intro c hc0
    have hlen : indexForPriority q c.priority = q.length := by
      rcases eq_or_ne q [] with rfl | hne
      · simp [indexForPriority]
      · have hpos := indexForPriority_pos q c.priority hne
        by_contra hlt
        have hl : indexForPriority q c.priority < q.length := by omega
        have hb := indexForPriority_below q c.priority (indexForPriority q c.priority)
          (le_refl _) hl
        have hmem : q.get ⟨indexForPriority q c.priority, hl⟩ ∈ q := List.get_mem q _ _
        have := (hbounds _ hmem).1
        rw [priorityAt_eq q _ hl] at hb
        omega
    refine ⟨hlen, ?_⟩
    rw [hlen]
    simp [insertPriority]
  · intro c hc1 hgt
    have hat := indexForPriority_at q c.priority hgt
    have hne : q ≠ [] := by
      intro he
      subst he
      simp [indexForPriority] at hgt
    have hpos := indexForPriority_pos q c.priority hne
    have hl : indexForPriority q c.priority - 1 < q.length := by omega
    have hmem : q.get ⟨indexForPriority q c.priority - 1, hl⟩ ∈ q := List.get_mem q _ _
    have hb := (hbounds _ hmem).2
    rw [priorityAt_eq q _ hl] at hat ⊢
    omega
  · intro c j h1 h2
    exact indexForPriority_below q c.priority j h1 h2

/-- Witness for `victron_C5_amended` on a concrete reachable queue. -/
theorem victron_C5_amended_witness : TailSorted [cmdGetA, cmdGetB] := by
  have h1 : Q_push_back true [] cmdGetA = [cmdGetA] := by decide
  have h2 : Q_push_back true [cmdGetA] cmdGetB = [cmdGetA, cmdGetB] := by decide
  have r1 := QReachable.push [] cmdGetA true QReachable.empty (by decide) (by decide)
  rw [h1] at r1
  have r2 := QReachable.push [cmdGetA] cmdGetB true r1 (by decide) (by decide)
  rw [h2] at r2
  exact (victron_C5_amended [cmdGetA, cmdGetB] r2).1

theorem runOnFunction_eq (time : Int) (key : List Nat) (d : Descriptor) :
    runOnFunction time key d =
      (if notifies d then some (changeOf d) else none,
       if notifies d then
         d.onFns.map (fun lid => EngineEvent.valueEv lid (changeOf d) time key)
       else []) := by
  rcases hd : d.newValue with _ | nv
  · simp [runOnFunction, notifies, hd]
  · rcases nv with n | str
    · by_cases hle : looseEq d.value (some (JsValue.num n)) <;>
        by_cases hdr : deltaReached d n <;>
        simp [runOnFunction, notifies, hd, hle, hdr]
    · by_cases hle : looseEq d.value (some (JsValue.str str)) <;>
        simp [runOnFunction, notifies, hd, hle]

theorem updatePass_spec (time : Int) : ∀ store,
    updatePass time store =
      (store.map (fun kd => (kd.1, updateCache kd.2)),
       (store.filter (fun kd => notifies kd.2)).map (fun kd => (kd.1, changeOf kd.2)),
       (store.map (fun kd => (runOnFunction time kd.1 kd.2).2)).flatten)
  | [] => by simp [updatePass]
  | (k, d) :: rest => by
    have ih := updatePass_spec time rest
    simp only [updatePass, ih, List.map_cons, List.filter_cons, List.flatten]
    by_cases hn : notifies d
    · simp [runOnFunction_eq, hn]
    · simp [runOnFunction_eq, hn]

theorem parseSerialInput_checksum_invalid (s : EngineState) (line : List Nat) (now : Int)
    (hop : s.isOperational = true)
    (hkey : (splitTab line).headI = codes "Checksum")
    (hcs : ∀ v, checksumUpdate s.checksum (line.take ((codes "Checksum").length + 2)) = some v →
      v % 256 ≠ 0) :
    parseSerialInput now s line =
      ({ discardValues s with packageArrivalTime := 0, checksum := 0 }, []) := by
  unfold parseSerialInput
  rw [if_neg (by simp [hop])]
  rw [if_neg (by rw [hkey]; decide), if_pos hkey]
  rcases hc : checksumUpdate s.checksum (line.take ((codes "Checksum").length + 2)) with _ | v
  · rfl
  · have hne := hcs v hc
    simp [hne]

/-- Claim C3: on a telemetry frame whose Checksum line fails the byte-sum
test (or whose checksum byte is missing, NaN), no descriptor's committed
value is mutated, the staged newValue of every victronMap-indexed
descriptor is cleared to null, descriptors not indexed by victronMap are
untouched, no listener fires, and the engine continues: it stays
operational with the accumulator reset for the next frame. -/
theorem victron_C3 (s : EngineState) (line : List Nat) (now : Int)
    (hop : s.isOperational = true)
    (hkey : (splitTab line).headI = codes "Checksum")
    (hcs : ∀ v, checksumUpdate s.checksum (line.take ((codes "Checksum").length + 2)) = some v →
      v % 256 ≠ 0) :
    (parseSerialInput now s line).2 = [] ∧
    (∀ i : Nat, (((parseSerialInput now s line).1.store[i]?).map (fun kd => kd.2.value)) =
      ((s.store[i]?).map (fun kd => kd.2.value))) ∧
    (∀ (i : Nat) (kd : List Nat × Descriptor), s.store[i]? = some kd →
      kd.1 ∈ s.victron.map Prod.snd →
      (parseSerialInput now s line).1.store[i]? = some (kd.1, { kd.2 with newValue := none })) ∧
    (∀ (i : Nat) (kd : List Nat × Descriptor), s.store[i]? = some kd →
      kd.1 ∉ s.victron.map Prod.snd →
      (parseSerialInput now s line).1.store[i]? = some kd) ∧
    (parseSerialInput now s line).1.isOperational = true ∧
    (parseSerialInput now s line).1.checksum = 0 := by
  rw [parseSerialInput_checksum_invalid s line now hop hkey hcs]
  refine ⟨rfl, ?_, ?_, ?_, by simpa [discardValues] using hop, rfl⟩
  · intro i
    simp only [discardValues, List.getElem?_map]
    rcases s.store[i]? with _ | kd
    · rfl
    · by_cases hm : kd.1 ∈ s.victron.map Prod.snd <;> simp [hm]
  · intro i kd hkd hm
    simp only [discardValues, List.getElem?_map, hkd]
    simp [hm]
  · intro i kd hkd hm
    simp only [discardValues, List.getElem?_map, hkd]
    simp [hm]

/-- The claim of C2 fails: processing the valid frame `V 100` /
`Checksum` on `c2State` commits `upperVoltage` from 99 to 100 (its
`value` field changes), yet the change is below the delta threshold 5,
so the change map is empty and the registered ChangeList listener is
never invoked -- the changed-descriptor set is not the key set of the
map, and the listener does not run exactly once. -/
theorem victron_C2_counterexample :
    (parseSerialInput 5 (parseSerialInput 5 c2State c2Line1).1 c2Line2).2 = [] ∧
    (amLookup (parseSerialInput 5 (parseSerialInput 5 c2State c2Line1).1 c2Line2).1.store
      (codes "upperVoltage")).map Descriptor.value = some (some (.num 100)) ∧
    (amLookup c2State.store (codes "upperVoltage")).map Descriptor.value =
      some (some (.num 99)) := by
  refine ⟨by decide, by decide, by decide⟩

/-- Claim C2 amended: after a Checksum line whose accumulated byte sum is
zero modulo 256, every staged value is committed (`updateCache` on every
entry); the change map handed to listeners consists of exactly the
descriptors whose staged value notifies (differs loosely from the
committed value and, for numbers, moves by at least delta in SI units) --
so a sub-delta numeric commit changes `value` without appearing in the
map; the per-key listener events come first, and then each ChangeList
listener is invoked exactly once with that map and the frame arrival
timestamp iff the map is nonempty; the accumulator and arrival time are
reset. -/
theorem victron_C2_amended (s : EngineState) (line : List Nat) (now : Int)
    (hop : s.isOperational = true)
    (hkey : (splitTab line).headI = codes "Checksum")
    (hcs : ∃ v, checksumUpdate s.checksum (line.take ((codes "Checksum").length + 2)) = some v ∧
      v % 256 = 0) :
    (parseSerialInput now s line).1.store =
      s.store.map (fun kd => (kd.1, updateCache kd.2)) ∧
    (parseSerialInput now s line).2 =
      (s.store.map (fun kd => (runOnFunction s.packageArrivalTime kd.1 kd.2).2)).flatten ++
      (if (s.store.filter (fun kd => notifies kd.2)) = [] then []
       else s.onList.map (fun lid => EngineEvent.changeListEv lid
         ((s.store.filter (fun kd => notifies kd.2)).map (fun kd => (kd.1, changeOf kd.2)))
         s.packageArrivalTime)) ∧
    (parseSerialInput now s line).1.checksum = 0 ∧
    (parseSerialInput now s line).1.packageArrivalTime = 0 := by
  obtain ⟨v, hv, hz⟩ := hcs
  have hrun : parseSerialInput now s line =
      ({ (updateValuesAndValueListeners s).1 with packageArrivalTime := 0, checksum := 0 },
       (updateValuesAndValueListeners s).2) := by
    unfold parseSerialInput
    rw [if_neg (by simp [hop])]
    rw [if_neg (by rw [hkey]; decide), if_pos hkey]
    rw [hv]
    simp [hz]
  rw [hrun]
  unfold updateValuesAndValueListeners
  rw [updatePass_spec]
  refine ⟨rfl, ?_, rfl, rfl⟩
  by_cases hm : (s.store.filter (fun kd => notifies kd.2)) = [] <;> simp [hm]

/-- Witness for `victron_C2_amended` on a concrete valid frame with an
above-delta change. -/
theorem victron_C2_amended_witness :
    (parseSerialInput 5 c2StateW c2LineW).1.store =
      c2StateW.store.map (fun kd => (kd.1, updateCache kd.2)) ∧
    (parseSerialInput 5 c2StateW c2LineW).1.checksum = 0 := by
  have h := victron_C2_amended c2StateW c2LineW 5 (by decide) (by decide)
    ⟨1280, by decide, by decide⟩
  exact ⟨h.1, h.2.2.1⟩

theorem splitTab_no_tab (l : List Nat) (h : 9 ∉ l) : splitTab l = [l] := by
  induction l with
  | nil => rfl
  | cons c r ih =>
    have hc : c ≠ 9 := by intro he; exact h (by simp [he])
    have hr : 9 ∉ r := fun hm => h (by simp [hm])
    simp [splitTab, hc, ih hr]

theorem splitTab_append (key value : List Nat) (hk : 9 ∉ key) :
    splitTab (key ++ 9 :: value) = key :: splitTab value := by
  induction key with
  | nil => simp [splitTab]
  | cons c k ih =>
    have hc : c ≠ 9 := by intro he; exact hk (by simp [he])
    have hr : 9 ∉ k := fun hm => hk (by simp [hm])
    simp [splitTab, hc, ih hr]

theorem amLookup_storeSet (store : List (List Nat × Descriptor)) (name : List Nat)
    (f : Descriptor → Descriptor) :
    amLookup (storeSet store name f) name = (amLookup store name).map f := by
  induction store with
  | nil => rfl
  | cons kd rest ih =>
    rcases kd with ⟨k, d⟩
    by_cases h : k = name
    · unfold amLookup storeSet
      simp only [List.map_cons, if_pos h]
      rw [List.find?_cons_of_pos _ (by simp [h]), List.find?_cons_of_pos _ (by simp [h])]
      simp
    · unfold amLookup storeSet at ih ⊢
      simp only [List.map_cons, if_neg h]
      rw [List.find?_cons_of_neg _ (by simp [h]), List.find?_cons_of_neg _ (by simp [h])]
      exact ih

/-- The claim of C7 fails in both directions at concrete inputs: the
telemetry value `0` is staged as the string `"0"` (JavaScript
`parseInt` returns the falsy 0, so the raw string is stored), not as the
number 0; and the hex-prefixed PID value `0x204` is staged as the number
516 (`parseInt` reads the 0x prefix), not as the unchanged string. -/
theorem victron_C7_counterexample :
    (amLookup (parseSerialInput 0 c7State (codes "SOC" ++ 9 :: codes "0")).1.store
      (codes "stateOfCharge")).map Descriptor.newValue = some (some (.str (codes "0"))) ∧
    (amLookup (parseSerialInput 0 c7State (codes "PID" ++ 9 :: codes "0x204")).1.store
      (codes "productId")).map Descriptor.newValue = some (some (.num 516)) := by
  refine ⟨by decide, by decide⟩

/-- Claim C7 amended: for a non-Checksum line `key TAB value` with a
registered key, the descriptor's staged newValue is the parsed integer
when `parseInt(value)` yields a nonzero number (this includes
hex-prefixed tokens such as `0x204`, which parseInt reads as hex), and
the raw string otherwise (NaN values such as `ON`/`OFF`, and the falsy
integer 0). -/
theorem victron_C7_amended (s : EngineState) (key value name : List Nat) (now : Int)
    (hop : s.isOperational = true)
    (hk9 : 9 ∉ key) (hv9 : 9 ∉ value)
    (hkey : key ≠ []) (hchk : key ≠ codes "Checksum")
    (hreg : amLookup s.victron key = some name) :
    (amLookup (parseSerialInput now s (key ++ 9 :: value)).1.store name) =
      (amLookup s.store name).map (fun d =>
        { d with newValue := some (match jsParseInt value with
            | some n => if n = 0 then JsValue.str value else JsValue.num n
            | none => JsValue.str value) }) ∧
    jsParseInt (codes "ON") = none ∧ jsParseInt (codes "OFF") = none ∧
    jsParseInt (codes "0x204") = some 516 ∧ jsParseInt (codes "0") = some 0 := by
  refine ⟨?_, by decide, by decide, by decide, by decide⟩
  have hsplit : splitTab (key ++ 9 :: value) = [key, value] := by
    rw [splitTab_append key value hk9, splitTab_no_tab value hv9]
  unfold parseSerialInput
  rw [if_neg (by simp [hop])]
  rw [hsplit]
  simp only [List.headI]
  rw [if_neg (by simpa using hkey), if_neg (by simpa using hchk)]
  rw [if_neg (by
    simp only [apply_ite EngineState.victron]
    simp [hreg])]
  simp only [apply_ite EngineState.victron, apply_ite EngineState.store]
  simp only [ite_self]
  simp only [hreg]
  have hr1 : (([key, value].get? 1).getD []) = value := rfl
  rw [hr1]
  exact amLookup_storeSet s.store name _

/-- Witness for `victron_C3` on a concrete frame with a bad checksum
byte. -/
theorem victron_C3_witness :
    (parseSerialInput 0 c2State (codes "Checksum" ++ [9, 0])).2 = [] ∧
    (parseSerialInput 0 c2State (codes "Checksum" ++ [9, 0])).1.checksum = 0 := by
  have h := victron_C3 c2State (codes "Checksum" ++ [9, 0]) 0 (by decide) (by decide)
    (by
      intro v hv
      have hd : checksumUpdate c2State.checksum
          ((codes "Checksum" ++ [9, 0]).take ((codes "Checksum").length + 2)) = some 851 := by
        decide
      rw [hd] at hv
      injection hv with he
      omega)
  exact ⟨h.1, h.2.2.2.2.2⟩

/-- Witness for `victron_C7_amended` on the scenario value `SOC 876`. -/
theorem victron_C7_amended_witness :
    (amLookup (parseSerialInput 3 c7State (codes "SOC" ++ 9 :: codes "876")).1.store
      (codes "stateOfCharge")) =
      (amLookup c7State.store (codes "stateOfCharge")).map (fun d =>
        { d with newValue := some (match jsParseInt (codes "876") with
            | some n => if n = 0 then JsValue.str (codes "876") else JsValue.num n
            | none => JsValue.str (codes "876")) }) := by
  exact (victron_C7_amended c7State (codes "SOC") (codes "876") (codes "stateOfCharge") 3
    (by decide) (by decide) (by decide) (by decide) (by decide) (by decide)).1

/-- While the retry counter stays positive, each timeout of a get or set
command (one whose expected-response prefix is its own identifier)
optionally writes the restart frame (retry counter divisible by five and
cached Relay value the string OFF), re-sends the command, decrements the
pending retry counter, and re-arms the timer. -/
theorem timeoutFire_retry_loop (T : Nat) (relay : Option JsValue) (c : Command)
    (rest : List Command) (n : Nat)
    (hmr : c.maxRetries = (n : Int))
    (hrid : (getResponse { c with priority := 1 }).take c.id.length = c.id) :
    ∀ k, k ≤ n →
      (timeoutFire T relay)^[k] (sendHead T ⟨c :: rest, [], 0, none, []⟩) =
        ⟨{ c with priority := 1 } :: rest,
         [(c.id, ⟨getResponse { c with priority := 1 }, c.id, (n : Int) - (k : Int)⟩)],
         k * T,
         some (k * T + T, { c with priority := 1 }),
         retryWrites (package c.cmdStr) T relay n k⟩ := by
  intro k
  induction k with
  | zero =>
    intro _
    simp only [Function.iterate_zero, id_eq, sendHead, amLookup, amInsert, List.find?_nil,
      Option.map_none', Option.isSome_none, Bool.false_eq_true, if_false, List.nil_append,
      hrid]
    simp [retryWrites, hmr, List.range_succ]
  | succ k ih =>
    intro hk
    rw [Function.iterate_succ_apply', ih (by omega)]
    have hle : (((n : Int) - (k : Int)) ≤ 0) = False := eq_false (by omega)
    have hcast : ((n : Int) - (k : Int)) = ((n - k : Nat) : Int) := by omega
    have hmod : ((((n : Int) - (k : Int)).tmod 5 = 0) ∧ relay = some (.str (codes "OFF")))
        = ((k + 1 ≠ 0 ∧ (n + 1 - (k + 1)) % 5 = 0 ∧ relay = some (.str (codes "OFF")))) := by
      rw [hcast, Int.tmod_eq_emod (by omega) (by omega)]
      simp only [eq_iff_iff]
      constructor
      · intro h
        exact ⟨by omega, by omega, h.2⟩
      · intro h
        exact ⟨by omega, h.2.2⟩
    simp only [timeoutFire, amLookup, sendHead, amInsert, hle, hmod, if_false, hrid,
      List.find?_cons_of_pos, decide_True, Option.map_some', Option.isSome_some, if_true]
    by_cases hc : k + 1 ≠ 0 ∧ (n + 1 - (k + 1)) % 5 = 0 ∧ relay = some (JsValue.str (codes "OFF"))
    · rw [if_pos hc]
      simp [retryWrites, List.range_succ, Nat.succ_mul, TxState.mk.injEq, hrid, hc]
      refine ⟨by omega, ?_⟩
      have h5 : (n - k) % 5 = 0 := by omega
      rw [if_pos h5]
      simp
    · rw [if_neg hc]
      simp [retryWrites, List.range_succ, Nat.succ_mul, TxState.mk.injEq, hrid, hc]
      refine ⟨by omega, ?_⟩
      intro h5 hoff
      exact hc ⟨by omega, by omega, hoff⟩

/-- Claim C4 amended: a command whose expected-response prefix equals its
own identifier (every get and set command) with `maxRetries = n`, never
answered, is written to the port exactly `n + 1` times at intervals of
the response timeout `T`, whatever the cached Relay value (when that
value is the string OFF, additional writes of the restart frame are
interleaved at the timeouts whose retry counter is a multiple of five,
including the final one, without affecting the command schedule); after
the last timeout its pending entry is removed from the responseMap, the
command is removed from the queue, and the next queued command (if any)
is promoted to priority 1 and sent at time `(n + 1) * T`. -/
theorem victron_C4_amended (T : Nat) (relay : Option JsValue) (c : Command)
    (rest : List Command) (n : Nat)
    (hmr : c.maxRetries = (n : Int))
    (hrid : (getResponse { c with priority := 1 }).take c.id.length = c.id) :
    (timeoutFire T relay)^[n + 1] (sendHead T ⟨c :: rest, [], 0, none, []⟩) =
      match rest with
      | [] =>
        ⟨[], [], (n + 1) * T, none,
         retryWrites (package c.cmdStr) T relay n n ++
           (if relay = some (.str (codes "OFF")) then
             [TxEvent.write restartFrame ((n + 1) * T)]
           else [])⟩
      | r :: t =>
        ⟨{ r with priority := 1 } :: t,
         [((getResponse { r with priority := 1 }).take r.id.length,
           ⟨getResponse { r with priority := 1 }, r.id, r.maxRetries⟩)],
         (n + 1) * T,
         some ((n + 1) * T + T, { r with priority := 1 }),
         retryWrites (package c.cmdStr) T relay n n ++
           (if relay = some (.str (codes "OFF")) then
             [TxEvent.write restartFrame ((n + 1) * T)]
           else []) ++
           [TxEvent.write (package r.cmdStr) ((n + 1) * T)]⟩ := by
  rw [Function.iterate_succ_apply',
    timeoutFire_retry_loop T relay c rest n hmr hrid n le_rfl]
  have hle : (((n : Int) - (n : Int)) ≤ 0) = True := eq_true (by omega)
  have hmod : ((((n : Int) - (n : Int)).tmod 5 = 0) ∧ relay = some (.str (codes "OFF")))
      = (relay = some (.str (codes "OFF"))) := by
    have h0 : ((n : Int) - (n : Int)) = 0 := by omega
    rw [h0]
    simp [Int.zero_tmod]
  simp only [timeoutFire, amLookup, amErase, qDelete, hle, hmod, if_true,
    List.find?_cons_of_pos, decide_True, Option.map_some']
  by_cases hoff : relay = some (JsValue.str (codes "OFF"))
  · rw [if_pos hoff, if_pos hoff]
    cases rest with
    | nil =>
      simp [List.findIdx?_cons, Nat.succ_mul]
    | cons r t =>
      simp only [List.findIdx?_cons, decide_True, if_true, List.eraseIdx_cons_zero,
        List.filter_cons, decide_not]
      simp only [sendHead, amLookup, amInsert, List.find?_nil, Option.map_none',
        Option.isSome_none, Bool.false_eq_true, if_false, List.nil_append]
      simp [List.filter, Nat.succ_mul, TxState.mk.injEq]
  · rw [if_neg hoff, if_neg hoff]
    cases rest with
    | nil =>
      simp [List.findIdx?_cons, Nat.succ_mul]
    | cons r t =>
      simp only [List.findIdx?_cons, decide_True, if_true, List.eraseIdx_cons_zero,
        List.filter_cons, decide_not]
      simp only [sendHead, amLookup, amInsert, List.find?_nil, Option.map_none',
        Option.isSome_none, Bool.false_eq_true, if_false, List.nil_append]
      simp [List.filter, Nat.succ_mul, TxState.mk.injEq]

/-- The claim of C4 fails for commands whose expected-response identifier
differs from their own identifier (ping, version and productId): the
responseMap is keyed by the response prefix (`5` for the ping command
`1`), while the timeout handler looks the entry up under the command
identifier, so the exhaustion branch never runs.  A ping with
`maxRetries = 2` has been written four times after three timeouts (the
claim allows exactly three), its pending entry is still present (keyed
under `5`, not under the command identifier `1`), and the command is
still queued, so it is never dropped. -/
theorem victron_C4_counterexample :
    mkCommand (codes "1") [] [] none (some 2) = some pingCmd ∧
    pingCmd.maxRetries = 2 ∧
    (getResponse { pingCmd with priority := 1 }).take pingCmd.id.length ≠ pingCmd.id ∧
    ((timeoutFire 6000 none)^[3]
        (sendHead 6000 ⟨[pingCmd], [], 0, none, []⟩)).events.countP
      (fun e => match e with | .write m _ => m = package pingCmd.cmdStr) = 4 ∧
    ((timeoutFire 6000 none)^[3]
        (sendHead 6000 ⟨[pingCmd], [], 0, none, []⟩)).q ≠ [] ∧
    amLookup ((timeoutFire 6000 none)^[3]
        (sendHead 6000 ⟨[pingCmd], [], 0, none, []⟩)).responseMap pingCmd.id = none := by
  refine ⟨by decide, by decide, by decide, by decide, by decide, by decide⟩

theorem victron_C4_amended_witness :
    mkCommand (codes "7") (codes "0x1000") [] none (some 2) = some c4wCmd ∧
    (timeoutFire 6000 none)^[3] (sendHead 6000 ⟨[c4wCmd], [], 0, none, []⟩) =
      ⟨[], [], 18000, none,
       [TxEvent.write (package c4wCmd.cmdStr) 0,
        TxEvent.write (package c4wCmd.cmdStr) 6000,
        TxEvent.write (package c4wCmd.cmdStr) 12000]⟩ ∧
    (timeoutFire 6000 (some (.str (codes "OFF"))))^[3]
        (sendHead 6000 ⟨[c4wCmd], [], 0, none, []⟩) =
      ⟨[], [], 18000, none,
       [TxEvent.write (package c4wCmd.cmdStr) 0,
        TxEvent.write (package c4wCmd.cmdStr) 6000,
        TxEvent.write (package c4wCmd.cmdStr) 12000,
        TxEvent.write restartFrame 18000]⟩ := by
  refine ⟨by decide, ?_, ?_⟩
  · have h := victron_C4_amended 6000 none c4wCmd [] 2 (by decide) (by decide)
    exact h.trans (by decide)
  · have h := victron_C4_amended 6000 (some (.str (codes "OFF"))) c4wCmd [] 2
      (by decide) (by decide)
    exact h.trans (by decide)

/-- Claim C8 fails in the code on the device-refused path: the guard at
src/index.js:1008 compares the relayState cache object itself with the
string `OFF` (strict equality of an object and a string, which is always
false), and the unguarded duplicate `this.restart()` call at
src/index.js:1010 then restarts unconditionally -- in particular while
the cached relay value is the string ON.  The every-fifth-retry timeout
path (src/index.js:1327-1329) is guarded correctly: with a retry counter
divisible by five, the restart frame is written when the cached Relay
value is OFF and not written when it is ON. -/
theorem victron_C8_code_bug :
    relayOnDescr.value = some (JsValue.str (codes "ON")) ∧
    jsStrictEqObjectString relayOnDescr (codes "OFF") = false ∧
    (evaluateRefusedBranch relayOnDescr ⟨[], [], 0, none, []⟩).events =
      [TxEvent.write restartFrame 0] ∧
    (timeoutFire 6000 (some (JsValue.str (codes "OFF")))
        (sendHead 6000 ⟨[⟨0, 5, codes "70010003E", codes "70010"⟩], [], 0, none, []⟩)).events.countP
      (fun e => match e with | .write m _ => m = restartFrame) = 1 ∧
    (timeoutFire 6000 (some (JsValue.str (codes "ON")))
        (sendHead 6000 ⟨[⟨0, 5, codes "70010003E", codes "70010"⟩], [], 0, none, []⟩)).events.countP
      (fun e => match e with | .write m _ => m = restartFrame) = 0 := by
  refine ⟨by decide, by decide, by decide, by decide, by decide⟩
